import Mathlib

/-!
Verification development for the Smart Task Analyzer core
(`src/tasks/scoring.py` and `src/tasks/views.py`).

Shallow embedding conventions:
* Calendar dates are modelled as integer day numbers with the epoch chosen
  on a Monday (e.g. day 0 = 2001-01-01), so that Python's
  `date.weekday()` (0 = Monday .. 6 = Sunday) becomes `d % 7` on `Int`.
  Adding one calendar day is `d + 1`.
* Python floats are modelled as exact rationals (`ℚ`).
* Python dicts of weights are association lists `List (String × ℚ)`.
* Python sets (`visited`, `rec_stack`) are duplicate-free lists used only
  through membership, guarded insertion and removal.
* Fallible code returns `Except PyErr _`; `PyErr.keyError` models a
  `KeyError` from `w[key]`, `PyErr.valueError` models the `ValueError`
  raised by `list.index`, and `PyErr.fuelOut` is the out-of-fuel marker of
  the fuel-indexed recursion used to embed Python's unbounded recursion.
-/

instance {ε : Type _} {α : Type _} [DecidableEq ε] [DecidableEq α] :
    DecidableEq (Except ε α) := fun a b =>
  match a, b with
  | Except.error e, Except.error f =>
    if h : e = f then isTrue (by rw [h]) else isFalse (by intro hh; cases hh; exact h rfl)
  | Except.error _, Except.ok _ => isFalse (by intro hh; cases hh)
  | Except.ok _, Except.error _ => isFalse (by intro hh; cases hh)
  | Except.ok x, Except.ok y =>
    if h : x = y then isTrue (by rw [h]) else isFalse (by intro hh; cases hh; exact h rfl)

/-- Python exceptions (and the artificial out-of-fuel marker). -/
inductive PyErr where
  | keyError
  | valueError
  | fuelOut
deriving DecidableEq, Repr

/-- `current.weekday() < 5` from `count_business_days`:
day `d` is a Monday..Friday. `%` on `Int` is Euclidean, so `d % 7 ∈ [0, 7)`. -/
def isWeekday (d : Int) : Bool := d % 7 < 5

/-- The `while current < end_date` loop of `count_business_days`
(`scoring.py` lines 49-59), unrolled over the number of remaining days:
counts weekdays among `start, start+1, ..., start+n-1`. -/
def countFwd (start : Int) : Nat → Int
  | 0 => 0
  | n + 1 => (if isWeekday start then 1 else 0) + countFwd (start + 1) n

/-- `count_business_days` (`scoring.py` lines 22-59).  The `start > end`
case recurses once with the arguments swapped and falls into the loop, so
it is unfolded here into the negated forward count. -/
def count_business_days (startDate endDate : Int) : Int :=
  if startDate = endDate then 0
  else if endDate < startDate then -(countFwd endDate (startDate - endDate).toNat)
  else countFwd startDate (endDate - startDate).toNat

/-- The number of weekdays among the `n` calendar days
`a, a+1, ..., a+n-1` (start inclusive, end exclusive), stated
independently of `countFwd` via `List.countP`. -/
def weekdaysFrom (a : Int) (n : Nat) : Int :=
  (((List.range n).map (fun (i : Nat) => a + (i : Int))).countP isWeekday : Nat)

/-- The business-day count the claim attributes to the code: the number
of weekdays among the calendar days from the day AFTER `a` through `b`
inclusive (start exclusive, end inclusive). -/
def claimedBusinessDays (a b : Int) : Int :=
  weekdaysFrom (a + 1) (b - a).toNat

/-! ## Task records and scoring strategies (`scoring.py`) -/

/-- The `due_date` entry of a task dict: `missing` covers an absent key,
`None` and the empty string (all falsy, caught by `if not due_date`);
`bad` is a string rejected by `datetime.fromisoformat` (the surrounding
`try` turns it into a degraded result); `valid d` is a date that parses
to day number `d`. -/
inductive DueDate where
  | missing
  | bad
  | valid (d : Int)
deriving DecidableEq, Repr

/-- A task dict as consumed by the scoring core.  `none` fields model
absent dict keys (the code reads them with `.get` and a default);
`dependencies` defaults to `[]` exactly as `.get('dependencies', [])`. -/
structure PyTask where
  id : Option Int := none
  dueDate : DueDate := DueDate.missing
  importance : Option Int := none
  estimatedHours : Option Int := none
  dependencies : List Int := []
deriving DecidableEq, Repr

/-- Python's `abs` on a float, modelled on exact rationals. -/
def pyAbs (x : ℚ) : ℚ := if x < 0 then -x else x

/-- Python's `round(x, 2)`: round half to even at two decimals
(floats are modelled as exact rationals). -/
def roundHalfEven (x : ℚ) : Int :=
  let n := x.floor
  let r := x - (n : ℚ)
  if r < 1/2 then n
  else if 1/2 < r then n + 1
  else if n % 2 = 0 then n else n + 1

def round2 (x : ℚ) : ℚ := ((roundHalfEven (x * 100) : Int) : ℚ) / 100

/-- A weights dict: an association list with Python-dict lookup through
the first matching key. -/
abbrev Weights := List (String × ℚ)

def sumValues (w : Weights) : ℚ := (w.map Prod.snd).sum

/-- `w[k]`: dict subscripting, raising `KeyError` when the key is absent. -/
def wget (w : Weights) (k : String) : Except PyErr ℚ :=
  match w.lookup k with
  | some v => Except.ok v
  | none => Except.error PyErr.keyError

def keyUrgency : String := "urgency"
def keyImportance : String := "importance"
def keyEffort : String := "effort"
def keyDependencies : String := "dependencies"

/-- `SmartBalanceScorer.DEFAULT_WEIGHTS` (`scoring.py` lines 99-104). -/
def DEFAULT_WEIGHTS : Weights :=
  [(keyUrgency, 2/5), (keyImportance, 3/10), (keyEffort, 1/5), (keyDependencies, 1/10)]

/-- Lines 114-119 of `scoring.py`: `w = weights if weights else DEFAULT`
followed by `if weights and abs(sum(weights.values()) - 1.0) > 0.01: w = DEFAULT`.
An absent or empty (falsy) dict and a dict whose values mis-sum both fall
back to the defaults; any other dict is used as-is. -/
def resolveWeights : Option Weights → Weights
  | none => DEFAULT_WEIGHTS
  | some w =>
    if w.isEmpty then DEFAULT_WEIGHTS
    else if 1/100 < pyAbs (sumValues w - 1) then DEFAULT_WEIGHTS
    else w

def noDueDateStr : String := "No due date set"
def invalidDueStr : String := "Invalid due date"
def overduePre : String := "⚠️ OVERDUE by "
def overdueSuf : String := " business day(s)"
def dueTodayStr : String := "⚠️ Due TODAY"
def dueTomorrowStr : String := "Due tomorrow (1 business day)"
def dueInPre : String := "Due in "
def dueInSuf : String := " business days"
def dueTwoWeeksStr : String := "Due within 2 weeks"
def dueDistantStr : String := "Due date is distant"
def highImpPre : String := "❗ High importance ("
def medImpPre : String := "Medium importance ("
def lowImpPre : String := "Low importance ("
def impSuf : String := "/10)"
def quickWinPre : String := "⚡ Quick win ("
def moderatePre : String := "Moderate effort ("
def standardPre : String := "Standard task ("
def largePre : String := "Large task ("
def hoursSuf : String := "h)"
def blocksPre : String := "🔗 Blocks "
def tasksSuf : String := " task(s)"
def waitingPre : String := "⏸️ Waiting on "
def bulletSep : String := " • "
def emptyExpl : String := ""
def noDueDateDD : String := "No due date"
def overdueDDPre : String := "Overdue by "
def dueTodayDD : String := "Due today"
def fastPre : String := "Quick task strategy: "
def fastSuf : String := " hour(s)"
def impactPre : String := "High impact strategy: "
def impactSuf : String := "/10 importance"

/-- `SmartBalanceScorer._calculate_urgency` (`scoring.py` lines 149-190). -/
def smartUrgency (t : PyTask) (today : Int) : ℚ × String :=
  match t.dueDate with
  | DueDate.missing => (0, noDueDateStr)
  | DueDate.bad => (0, invalidDueStr)
  | DueDate.valid d =>
    let days := count_business_days today d
    if days < 0 then (100, overduePre ++ toString (-days) ++ overdueSuf)
    else if days = 0 then (90, dueTodayStr)
    else if days = 1 then (80, dueTomorrowStr)
    else if days ≤ 3 then (50, dueInPre ++ toString days ++ dueInSuf)
    else if days ≤ 5 then (30, dueInPre ++ toString days ++ dueInSuf)
    else if days ≤ 10 then (15, dueTwoWeeksStr)
    else (5, dueDistantStr)

/-- `SmartBalanceScorer._calculate_importance` (`scoring.py` lines 192-207). -/
def smartImportance (t : PyTask) : ℚ × String :=
  let imp := max 1 (min 10 (t.importance.getD 5))
  let score : ℚ := ((imp * 10 : Int) : ℚ)
  if 8 ≤ imp then (score, highImpPre ++ toString imp ++ impSuf)
  else if 5 ≤ imp then (score, medImpPre ++ toString imp ++ impSuf)
  else (score, lowImpPre ++ toString imp ++ impSuf)

/-- `SmartBalanceScorer._calculate_effort` (`scoring.py` lines 209-223). -/
def smartEffort (t : PyTask) : ℚ × String :=
  let hours := max 1 (t.estimatedHours.getD 2)
  if hours < 2 then (20, quickWinPre ++ toString hours ++ hoursSuf)
  else if hours ≤ 4 then (10, moderatePre ++ toString hours ++ hoursSuf)
  else if hours ≤ 8 then (0, standardPre ++ toString hours ++ hoursSuf)
  else (-10, largePre ++ toString hours ++ hoursSuf)

/-- `SmartBalanceScorer._calculate_dependencies` (`scoring.py` lines 225-248).
A task whose id is `None` is listed in no integer dependency list, so its
blocker count is 0. -/
def smartDependencies (t : PyTask) (allTasks : List PyTask) : ℚ × String :=
  let blockers : Int := match t.id with
    | some i => ((allTasks.filter (fun o => i ∈ o.dependencies)).length : Int)
    | none => 0
  if 0 < blockers then (((blockers * 15 : Int) : ℚ), blocksPre ++ toString blockers ++ tasksSuf)
  else if t.dependencies.isEmpty then (0, emptyExpl)
  else (-20, waitingPre ++ toString t.dependencies.length ++ tasksSuf)

/-- `SmartBalanceScorer.calculate_score` (`scoring.py` lines 106-147).
The weight subscripts `w['urgency']`, `w['importance']`, `w['effort']`
and - only when `all_tasks` is truthy - `w['dependencies']` can raise
`KeyError`; the components themselves are pure, so they are hoisted
outside the monadic chain without changing observable behaviour. -/
def SmartBalance_calculate_score (t : PyTask) (allTasks : List PyTask)
    (weights : Option Weights) (today : Int) : Except PyErr (ℚ × String) :=
  let w := resolveWeights weights
  let u := smartUrgency t today
  let im := smartImportance t
  let ef := smartEffort t
  do
    let wu ← wget w keyUrgency
    let wi ← wget w keyImportance
    let we ← wget w keyEffort
    let base := u.1 * wu + im.1 * wi + ef.1 * we
    let expl3 := [u.2, im.2, ef.2]
    if allTasks.isEmpty then
      pure (round2 base, String.intercalate bulletSep expl3)
    else
      let dp := smartDependencies t allTasks
      let wd ← wget w keyDependencies
      let expl := if dp.2.isEmpty then expl3 else expl3 ++ [dp.2]
      pure (round2 (base + dp.1 * wd), String.intercalate bulletSep expl)

/-- `FastestWinsScorer.calculate_score` (`scoring.py` lines 251-268). -/
def FastestWins_calculate_score (t : PyTask) : ℚ × String :=
  let hours := max 1 (t.estimatedHours.getD 2)
  let score : Int := max 0 (100 - hours * 5)
  ((score : ℚ), fastPre ++ toString hours ++ fastSuf)

/-- `HighImpactScorer.calculate_score` (`scoring.py` lines 271-285). -/
def HighImpact_calculate_score (t : PyTask) : ℚ × String :=
  let imp := max 1 (min 10 (t.importance.getD 5))
  (((imp * 10 : Int) : ℚ), impactPre ++ toString imp ++ impactSuf)

/-- `DeadlineDrivenScorer.calculate_score` (`scoring.py` lines 288-329). -/
def DeadlineDriven_calculate_score (t : PyTask) (today : Int) : ℚ × String :=
  match t.dueDate with
  | DueDate.missing => (0, noDueDateDD)
  | DueDate.bad => (0, invalidDueStr)
  | DueDate.valid d =>
    let days := count_business_days today d
    if days < 0 then (((150 + (-days) : Int) : ℚ), overdueDDPre ++ toString (-days) ++ dueInSuf)
    else if days = 0 then (120, dueTodayDD)
    else if days ≤ 5 then (((100 - days * 10 : Int) : ℚ), dueInPre ++ toString days ++ dueInSuf)
    else (((max 0 (30 - days) : Int) : ℚ), dueInPre ++ toString days ++ dueInSuf)

/-- The four concrete strategies (the Strategy Pattern is closed here). -/
inductive Scorer where
  | smartBalance
  | fastestWins
  | highImpact
  | deadlineDriven
deriving DecidableEq, Repr

def sbName : String := "smart_balance"
def fwName : String := "fastest_wins"
def hiName : String := "high_impact"
def ddName : String := "deadline_driven"

/-- `get_scorer` (`scoring.py` lines 386-403): name lookup with silent
fallback to SmartBalance. -/
def get_scorer (strategy : String) : Scorer :=
  if strategy = sbName then Scorer.smartBalance
  else if strategy = fwName then Scorer.fastestWins
  else if strategy = hiName then Scorer.highImpact
  else if strategy = ddName then Scorer.deadlineDriven
  else Scorer.smartBalance

/-- Polymorphic `calculate_score` dispatch.  Only SmartBalance can raise
(through the weight subscripts); the other three always return. -/
def calcScore (s : Scorer) (t : PyTask) (allTasks : List PyTask)
    (weights : Option Weights) (today : Int) : Except PyErr (ℚ × String) :=
  match s with
  | Scorer.smartBalance => SmartBalance_calculate_score t allTasks weights today
  | Scorer.fastestWins => Except.ok (FastestWins_calculate_score t)
  | Scorer.highImpact => Except.ok (HighImpact_calculate_score t)
  | Scorer.deadlineDriven => Except.ok (DeadlineDriven_calculate_score t today)

/-! ## Cycle detection (`detect_circular_dependencies`, `scoring.py` lines 332-383)

The Python sets `visited` and `rec_stack` are modelled as duplicate-free
lists used through membership, guarded insertion and removal; the shared
mutable state is threaded explicitly. -/

/-- `set.add`: guarded insertion keeping the list duplicate-free. -/
def setAdd (x : Int) (l : List Int) : List Int := if x ∈ l then l else x :: l

structure DetectSt where
  visited : List Int
  recStack : List Int
  cycles : List (List Int)
deriving DecidableEq, Repr

/-- `graph[task_id] = deps`: Python dict assignment - update in place when
the key exists (keeping its position), append otherwise. -/
def dictSet (g : List (Int × List Int)) (k : Int) (v : List Int) : List (Int × List Int) :=
  match g with
  | [] => [(k, v)]
  | (k', v') :: rest => if k' = k then (k, v) :: rest else (k', v') :: dictSet rest k v

/-- The adjacency dict built in lines 350-355: `if task_id:` is a
truthiness test, so tasks whose id is `None` OR `0` are skipped. -/
def buildGraph (tasks : List PyTask) : List (Int × List Int) :=
  tasks.foldl (fun g t =>
    match t.id with
    | some i => if i = 0 then g else dictSet g i t.dependencies
    | none => g) []

/-- `graph.get(node, [])`. -/
def graphGet (g : List (Int × List Int)) (n : Int) : List Int :=
  match g.lookup n with
  | some ds => ds
  | none => []

/-- Every node the traversal can ever enter: the graph's keys and every
dependency id appearing in a value. -/
def univList (g : List (Int × List Int)) : List Int :=
  g.foldr (fun kv acc => kv.1 :: kv.2 ++ acc) []

/-- One step of the `for neighbor in graph.get(node, [])` loop of `dfs`
(`scoring.py` lines 363-372), over the short-circuiting accumulator: an
exception or an early `return True` passes through; otherwise the
neighbor is examined.  A visited neighbor on the recursion stack records
the cycle `path[path.index(neighbor):] + [neighbor]` and returns `True`;
`path.index` raises `ValueError` when the neighbor is not on the current
path (possible because an aborted earlier traversal never cleans
`rec_stack`).  An unvisited neighbor recurses through `recurse`. -/
def dfsVisit (recurse : Int → List Int → DetectSt → Except PyErr (Bool × List Int × DetectSt))
    (acc : Except PyErr (Bool × List Int × DetectSt)) (nb : Int) :
    Except PyErr (Bool × List Int × DetectSt) :=
  match acc with
  | Except.error e => Except.error e
  | Except.ok (true, p, s) => Except.ok (true, p, s)
  | Except.ok (false, p, s) =>
    if nb ∈ s.visited then
      if nb ∈ s.recStack then
        match p.findIdx? (fun x => x == nb) with
        | none => Except.error PyErr.valueError
        | some i =>
          Except.ok (true, p, ⟨s.visited, s.recStack, s.cycles ++ [p.drop i ++ [nb]]⟩)
      else Except.ok (false, p, s)
    else recurse nb p s

/-- The recursive closure `dfs(node, path)` (`scoring.py` lines 357-376),
fuel-indexed and structurally recursive on the fuel: mark `node` visited,
push it on the recursion stack and on the shared path, scan the
neighbors, and - when the loop completes without an early return - pop
the path, remove `node` from the recursion stack and return `False`. -/
def dfs : Nat → List (Int × List Int) → Int → List Int → DetectSt →
    Except PyErr (Bool × List Int × DetectSt)
  | 0, _, _, _, _ => Except.error PyErr.fuelOut
  | fuel + 1, g, node, path, st =>
    let st1 : DetectSt := ⟨setAdd node st.visited, setAdd node st.recStack, st.cycles⟩
    match (graphGet g node).foldl (dfsVisit (fun nb p s => dfs fuel g nb p s))
        (Except.ok (false, path ++ [node], st1)) with
    | Except.ok (false, p, s) =>
      Except.ok (false, p.dropLast, ⟨s.visited, s.recStack.erase node, s.cycles⟩)
    | other => other

/-- The driver loop `for task_id in graph: if task_id not in visited:
dfs(task_id, [])` (lines 378-381); return values are discarded and
exceptions propagate. -/
def detectLoop (fuel : Nat) (g : List (Int × List Int)) (keys : List Int)
    (st : DetectSt) : Except PyErr DetectSt :=
  match keys with
  | [] => Except.ok st
  | k :: rest =>
    if k ∈ st.visited then detectLoop fuel g rest st
    else
      match dfs fuel g k [] st with
      | Except.error e => Except.error e
      | Except.ok (_, _, s') => detectLoop fuel g rest s'

/-- `detect_circular_dependencies` (`scoring.py` lines 332-383).  The
fuel bounds the nesting depth of the Python recursion; every nested call
enters a node of `univList g` that was unvisited and marks it visited,
so `(univList g).length + 1` never runs out (proved below). -/
def detect_circular_dependencies (tasks : List PyTask) : Except PyErr (List (List Int)) :=
  let g := buildGraph tasks
  (detectLoop ((univList g).length + 1) g (g.map Prod.fst) ⟨[], [], []⟩).map DetectSt.cycles

/-! ## Analysis pipeline (`views.py`, `analyze_tasks` lines 24-133) -/

structure ScoredTask where
  task : PyTask
  score : ℚ
  explanation : String
  priorityLevel : String
deriving DecidableEq, Repr

def hiStr : String := "HIGH"
def medStr : String := "MEDIUM"
def lowStr : String := "LOW"

/-- The priority tiers of `views.py` lines 110-115. -/
def priorityLevelOf (score : ℚ) : String :=
  if 70 ≤ score then hiStr else if 30 ≤ score then medStr else lowStr

/-- `views.py` lines 92-98: assign the positional id `i + 1` to tasks
whose id is `None` (an explicit id, including `0`, is kept). -/
def fillIds (tasks : List PyTask) : List PyTask :=
  tasks.enum.map (fun p =>
    match p.2.id with
    | none => { p.2 with id := some ((p.1 : Int) + 1) }
    | some _ => p.2)

/-- `views.py` lines 100-123: score every task against the full id-filled
batch and attach score, explanation and priority level, in input order.
The first exception aborts the whole request. -/
def scoredTasks (tasks : List PyTask) (strategy : String)
    (weights : Option Weights) (today : Int) : Except PyErr (List ScoredTask) :=
  let scorer := get_scorer strategy
  let filled := fillIds tasks
  filled.mapM (fun t => (calcScore scorer t filled weights today).map
    (fun se => ⟨t, se.1, se.2, priorityLevelOf se.1⟩))

/-- The sort key of `scored_tasks.sort(key=lambda x: x['score'], reverse=True)`:
`a` may stay before `b` iff `b.score ≤ a.score`. -/
def scoreDescBool (a b : ScoredTask) : Bool := decide (b.score ≤ a.score)

/-- Python's `list.sort(key=..., reverse=True)` is the stable descending
sort, which as a function of the list is exactly stable merge sort under
`scoreDescBool`. -/
def sortByScoreDesc (l : List ScoredTask) : List ScoredTask := l.mergeSort scoreDescBool

/-- `analyze_tasks` after request validation (`views.py` lines 83-133). -/
def analyze_tasks (tasks : List PyTask) (strategy : String)
    (weights : Option Weights) (today : Int) : Except PyErr (List ScoredTask) :=
  (scoredTasks tasks strategy weights today).map sortByScoreDesc


/-! ## String containment and concrete instances used by the scenario claims -/

/-- Does the second character list start with the first? -/
def startsList : List Char → List Char → Bool
  | [], _ => true
  | _ :: _, [] => false
  | a :: as, b :: bs => a == b && startsList as bs

/-- Does the second character list contain the first as a contiguous run? -/
def subList (needle : List Char) : List Char → Bool
  | [] => startsList needle []
  | h :: t => startsList needle (h :: t) || subList needle t

/-- Substring containment (Python's `frag in s`). -/
def strContains (s frag : String) : Bool := subList frag.data s.data

def cexExplanation : String := "No due date set • Medium importance (5/10) • Moderate effort (2h)"

def c7Explanation : String := "⚠️ Due TODAY • Medium importance (5/10) • Moderate effort (2h)"

def fragDueToday : String := "Due TODAY"

def fragMediumImportance : String := "Medium importance"

/-- The C7 scenario task: due exactly on the reference date, importance
5, 2 estimated hours, no dependencies. -/
def c7Task (today : Int) : PyTask :=
  { id := some 1, dueDate := DueDate.valid today, importance := some 5,
    estimatedHours := some 2, dependencies := [] }

def tW1 : PyTask :=
  { id := some 1, dueDate := DueDate.valid 0, importance := some 5,
    estimatedHours := some 2, dependencies := [] }

def tW2 : PyTask :=
  { id := some 2, dueDate := DueDate.valid 0, importance := some 5,
    estimatedHours := some 2, dependencies := [] }

/-- The scored list produced for `[tW1, tW2]` under `deadline_driven` on
day 0: both tasks are due today, so both score 120 (a tie). -/
def lW : List ScoredTask :=
  [⟨tW1, 120, dueTodayDD, hiStr⟩, ⟨tW2, 120, dueTodayDD, hiStr⟩]


/-! ## Notions used by the cycle-detection claims -/

/-- The dependency edge relation of an adjacency dict: `a` depends on `b`. -/
def depEdge (g : List (Int × List Int)) (a b : Int) : Prop := b ∈ graphGet g a

/-- An adjacency dict is acyclic when no node reaches itself through a
non-empty chain of dependency edges. -/
def AcyclicGraph (g : List (Int × List Int)) : Prop :=
  ∀ a, ¬ Relation.TransGen (depEdge g) a a

/-- The number of traversal-relevant nodes not yet visited - the measure
showing the chosen fuel suffices. -/
def remaining (g : List (Int × List Int)) (visited : List Int) : Nat :=
  ((univList g).filter (fun x => decide (x ∉ visited))).length

/-- The outcomes `dfs` can have: the `ValueError` of `path.index`, or an
ordinary return with the visited set only ever grown. -/
def DfsOk (st : DetectSt) (r : Except PyErr (Bool × List Int × DetectSt)) : Prop :=
  r = Except.error PyErr.valueError ∨
  ∃ b p s', r = Except.ok (b, p, s') ∧ ∀ x, x ∈ st.visited → x ∈ s'.visited

/-- An acyclic one-task batch. -/
def acyclicTasks : List PyTask := [{ id := some 1 }]

/-- `A → B → A`: tasks 1 and 2 depend on each other. -/
def cycTasksAB : List PyTask :=
  [{ id := some 1, dependencies := [2] }, { id := some 2, dependencies := [1] }]

/-- A single self-dependency. -/
def cycTaskSelf : List PyTask := [{ id := some 7, dependencies := [7] }]

/-- Two independent 2-cycles plus one unconnected task. -/
def cycTasksTwo : List PyTask :=
  [{ id := some 1, dependencies := [2] }, { id := some 2, dependencies := [1] },
   { id := some 3, dependencies := [4] }, { id := some 4, dependencies := [3] },
   { id := some 5 }]

/-- A 2-cycle plus a third task whose dependency points into the cycle:
after the cycle aborts the first traversal, the stale recursion stack
makes the traversal from task 3 call `path.index(1)` on the path `[3]`. -/
def c1Tasks : List PyTask :=
  [{ id := some 1, dependencies := [2] }, { id := some 2, dependencies := [1] },
   { id := some 3, dependencies := [1] }]

/-- Task id 0 closes a circular chain with task 1, but its falsy id keeps
it out of the adjacency dict, so the cycle is never reported. -/
def c10Tasks : List PyTask :=
  [{ id := some 0, dependencies := [1] }, { id := some 1, dependencies := [0] }]

/-! ## Theorems: date arithmetic (claims C8, C3) -/

theorem countFwd_eq_weekdaysFrom : ∀ (n : Nat) (a : Int), countFwd a n = weekdaysFrom a n := by
  intro n
  induction n with
  | zero => intro a; simp [countFwd, weekdaysFrom]
  | succ n ih =>
    intro a
    have hmap : ((List.range (n + 1)).map (fun (i : Nat) => a + (i : Int)))
        = a :: ((List.range n).map (fun (i : Nat) => (a + 1) + (i : Int))) := by
      rw [List.range_succ_eq_map]
      simp only [List.map_cons, List.map_map, Nat.cast_zero, add_zero]
      congr 1
      apply List.map_congr_left
      intro i _
      simp only [Function.comp_apply]
      push_cast
      ring
    simp only [countFwd, weekdaysFrom, hmap, List.countP_cons, ih (a + 1)]
    by_cases h : isWeekday a
    · simp [weekdaysFrom, h]
      ring
    · simp [weekdaysFrom, h]


/-- C8: `businessDaysBetween(d, d) = 0` for every date `d`, and
`businessDaysBetween(a, b) = -businessDaysBetween(b, a)` for every pair of
dates `a, b` (antisymmetry). -/
theorem count_business_days_self_antisymm :
    (∀ d : Int, count_business_days d d = 0) ∧
    (∀ a b : Int, count_business_days a b = -count_business_days b a) := by
  constructor
  · intro d; simp [count_business_days]
  · intro a b
    rcases lt_trichotomy a b with h | h | h
    · have hne : a ≠ b := ne_of_lt h
      simp [count_business_days, hne, hne.symm, h, lt_asymm h]
    · subst h; simp [count_business_days]
    · have hne : b ≠ a := ne_of_lt h
      simp [count_business_days, hne, hne.symm, h, lt_asymm h]

/-- C3 (amended): for `start < end`, `count_business_days` equals the
number of weekdays among the calendar days from `start` INCLUSIVE to
`end` EXCLUSIVE (not the start-exclusive / end-inclusive convention the
claim states). -/
theorem count_business_days_eq_weekdaysFrom (a b : Int) (h : a < b) :
    count_business_days a b = weekdaysFrom a (b - a).toNat := by
  have hne : a ≠ b := ne_of_lt h
  simp [count_business_days, hne, lt_asymm h, countFwd_eq_weekdaysFrom]

theorem count_business_days_eq_weekdaysFrom_witness :
    (5 : Int) < 9 ∧ count_business_days 5 9 = weekdaysFrom 5 ((9 : Int) - 5).toNat :=
  ⟨by decide, count_business_days_eq_weekdaysFrom 5 9 (by decide)⟩

/-- C3 counterexample: day 5 is a Saturday and day 7 the following
Monday.  The code walks Saturday and Sunday (start inclusive, end
exclusive) and returns 0, while the claimed start-exclusive /
end-inclusive convention walks Sunday and Monday and counts 1. -/
theorem count_business_days_convention_cex :
    count_business_days 5 7 = 0 ∧ claimedBusinessDays 5 7 = 1 := by decide

/-! ## Theorems: DeadlineDriven scoring (claim C6) -/

/-- C6: DeadlineDriven's score is 0 for a missing or unparseable due
date; `150 + |d|` when the business-day distance `d` is negative; 120
when `d = 0`; `100 - d*10` when `1 ≤ d ≤ 5`; and `max(0, 30 - d)` when
`d > 5`. -/
theorem DeadlineDriven_score_cases (today d : Int) (t : PyTask) :
    (t.dueDate = DueDate.missing →
      DeadlineDriven_calculate_score t today = (0, noDueDateDD)) ∧
    (t.dueDate = DueDate.bad →
      DeadlineDriven_calculate_score t today = (0, invalidDueStr)) ∧
    (t.dueDate = DueDate.valid d →
      (count_business_days today d < 0 →
        (DeadlineDriven_calculate_score t today).1
          = (((150 + |count_business_days today d| : Int) : ℚ))) ∧
      (count_business_days today d = 0 →
        (DeadlineDriven_calculate_score t today).1 = 120) ∧
      (1 ≤ count_business_days today d → count_business_days today d ≤ 5 →
        (DeadlineDriven_calculate_score t today).1
          = (((100 - count_business_days today d * 10 : Int) : ℚ))) ∧
      (5 < count_business_days today d →
        (DeadlineDriven_calculate_score t today).1
          = (((max 0 (30 - count_business_days today d) : Int) : ℚ)))) := by
  refine ⟨?_, ?_, ?_⟩
  · intro h; simp [DeadlineDriven_calculate_score, h]
  · intro h; simp [DeadlineDriven_calculate_score, h]
  · intro h
    simp only [DeadlineDriven_calculate_score, h]
    refine ⟨?_, ?_, ?_, ?_⟩
    · intro hneg
      rw [if_pos hneg]
      simp [abs_of_neg hneg]
    · intro h0
      rw [if_neg (by omega), if_pos h0]
    · intro h1 h5
      rw [if_neg (by omega), if_neg (by omega), if_pos h5]
    · intro h5
      rw [if_neg (by omega), if_neg (by omega), if_neg (by omega)]

theorem DeadlineDriven_score_cases_witness :
    count_business_days 0 (-14) < 0 ∧
    (DeadlineDriven_calculate_score { dueDate := DueDate.valid (-14) } 0).1
      = (((150 + |count_business_days 0 (-14)| : Int) : ℚ)) ∧
    (DeadlineDriven_calculate_score { dueDate := DueDate.valid (-14) } 0).1 = 160 :=
  ⟨by decide,
   ((DeadlineDriven_score_cases 0 (-14) { dueDate := DueDate.valid (-14) }).2.2 rfl).1
     (by decide),
   by decide⟩

/-! ## Helper lemmas for concrete score evaluation -/

theorem roundHalfEven_intCast (z : Int) : roundHalfEven ((z : Int) : ℚ) = z := by
  unfold roundHalfEven
  rw [Rat.floor_def']
  norm_num

theorem round2_intCast (z : Int) : round2 ((z : Int) : ℚ) = ((z : Int) : ℚ) := by
  unfold round2
  have h : ((z : Int) : ℚ) * 100 = (((z * 100 : Int)) : ℚ) := by push_cast; ring
  rw [h, roundHalfEven_intCast]
  push_cast
  ring

/-- Evaluation of SmartBalance under the default weights on an empty
batch (`all_tasks` falsy: no dependency component). -/
theorem SmartBalance_default_eval_empty (t : PyTask) (today : Int) :
    SmartBalance_calculate_score t [] none today =
      Except.ok (round2 ((smartUrgency t today).1 * (2/5) + (smartImportance t).1 * (3/10)
          + (smartEffort t).1 * (1/5)),
        String.intercalate bulletSep
          [(smartUrgency t today).2, (smartImportance t).2, (smartEffort t).2]) := rfl

/-- Evaluation of SmartBalance under the default weights on a non-empty
batch (dependency component included; an empty dependency explanation is
not appended). -/
theorem SmartBalance_default_eval_cons (t : PyTask) (a : PyTask) (rest : List PyTask)
    (today : Int) :
    SmartBalance_calculate_score t (a :: rest) none today =
      Except.ok (round2 ((smartUrgency t today).1 * (2/5) + (smartImportance t).1 * (3/10)
          + (smartEffort t).1 * (1/5) + (smartDependencies t (a :: rest)).1 * (1/10)),
        String.intercalate bulletSep
          (if (smartDependencies t (a :: rest)).2.isEmpty
           then [(smartUrgency t today).2, (smartImportance t).2, (smartEffort t).2]
           else [(smartUrgency t today).2, (smartImportance t).2, (smartEffort t).2,
                 (smartDependencies t (a :: rest)).2])) := rfl

/-! ## Theorems: SmartBalance weight handling (claim C2) -/

/-- C2 (amended): the silent fallback to `DEFAULT_WEIGHTS` happens
exactly when the supplied dict is falsy (absent or empty) or its values
do not sum to 1.0 within 0.01 - whatever keys it has; under the fallback
the result equals the default-weight result, which is always an ordinary
`(score, explanation)` pair.  (A PARTIAL dict whose values do sum to 1.0
is used as-is and scoring raises `KeyError`; see the counterexample.) -/
theorem SmartBalance_weight_fallback (t : PyTask) (allTasks : List PyTask)
    (today : Int) (ws : Weights)
    (h : ws = [] ∨ 1/100 < pyAbs (sumValues ws - 1)) :
    SmartBalance_calculate_score t allTasks (some ws) today
      = SmartBalance_calculate_score t allTasks none today ∧
    ∃ p, SmartBalance_calculate_score t allTasks none today = Except.ok p := by
  have hres : resolveWeights (some ws) = DEFAULT_WEIGHTS := by
    rcases h with h | h
    · simp [resolveWeights, h]
    · by_cases he : ws.isEmpty
      · simp [resolveWeights, he]
      · simp only [resolveWeights]
        rw [if_neg he, if_pos h]
  constructor
  · unfold SmartBalance_calculate_score
    rw [hres]
    rfl
  · cases allTasks <;> exact ⟨_, rfl⟩

theorem SmartBalance_weight_fallback_witness :
    (([(keyUrgency, (2 : ℚ))] : Weights) = [] ∨
      1/100 < pyAbs (sumValues [(keyUrgency, (2 : ℚ))] - 1)) ∧
    SmartBalance_calculate_score {} [] (some [(keyUrgency, (2 : ℚ))]) 0
      = SmartBalance_calculate_score {} [] none 0 :=
  ⟨Or.inr (by norm_num [sumValues, pyAbs]),
   (SmartBalance_weight_fallback {} [] 0 [(keyUrgency, 2)]
     (Or.inr (by norm_num [sumValues, pyAbs]))).1⟩

/-- C2 counterexample: the partial dict `{'urgency': 1.0}` has a missing
key yet sums to 1.0, so the code does NOT substitute the defaults: it
uses the dict and `w['importance']` raises `KeyError`, instead of
returning the default-weight result `(17.0, ...)`. -/
theorem SmartBalance_partial_weights_cex :
    SmartBalance_calculate_score {} [] (some [(keyUrgency, (1 : ℚ))]) 0
      = Except.error PyErr.keyError ∧
    SmartBalance_calculate_score {} [] none 0 = Except.ok (17, cexExplanation) := by
  have hres : resolveWeights (some [(keyUrgency, (1 : ℚ))]) = [(keyUrgency, (1 : ℚ))] := by
    norm_num [resolveWeights, sumValues, pyAbs]
  constructor
  · unfold SmartBalance_calculate_score
    rw [hres]
    rfl
  · rw [SmartBalance_default_eval_empty]
    refine congrArg Except.ok (Prod.ext ?_ (by rfl))
    show round2 ((smartUrgency ({} : PyTask) 0).1 * (2/5) + (smartImportance {}).1 * (3/10)
        + (smartEffort {}).1 * (1/5)) = 17
    have hsum : (smartUrgency ({} : PyTask) 0).1 * (2/5) + (smartImportance {}).1 * (3/10)
        + (smartEffort {}).1 * (1/5) = ((17 : Int) : ℚ) := by
      have h1 : (smartUrgency ({} : PyTask) 0).1 = 0 := rfl
      have h2 : (smartImportance {}).1 = ((50 : Int) : ℚ) := rfl
      have h3 : (smartEffort {}).1 = 10 := rfl
      rw [h1, h2, h3]
      norm_num
    rw [hsum, round2_intCast]
    norm_num

/-! ## Theorems: SmartBalance due-today scenario (claim C7) -/

/-- C7: for a task due exactly on the reference date with importance 5,
2 estimated hours, no dependencies and nothing depending on it,
SmartBalance with default weights uses subscores urgency 90 ("Due
TODAY"), importance 50 ("Medium importance"), effort 10 (the "Moderate
effort" branch: the `< 2` quick-win test excludes exactly 2 hours), and
dependency 0, for a total of 90*0.40 + 50*0.30 + 10*0.20 = 53.0; the
explanation contains the fragments "Due TODAY" and "Medium importance". -/
theorem SmartBalance_due_today_scenario (today : Int) :
    smartUrgency (c7Task today) today = (90, dueTodayStr) ∧
    smartImportance (c7Task today) = (50, medImpPre ++ toString (5 : Int) ++ impSuf) ∧
    smartEffort (c7Task today) = (10, moderatePre ++ toString (2 : Int) ++ hoursSuf) ∧
    smartDependencies (c7Task today) [c7Task today] = (0, emptyExpl) ∧
    SmartBalance_calculate_score (c7Task today) [c7Task today] none today
      = Except.ok (53, c7Explanation) ∧
    strContains c7Explanation fragDueToday = true ∧
    strContains c7Explanation fragMediumImportance = true := by
  have h0 : count_business_days today today = 0 := by simp [count_business_days]
  have hu : smartUrgency (c7Task today) today = (90, dueTodayStr) := by
    simp [smartUrgency, c7Task, h0]
  have him : smartImportance (c7Task today) = (50, medImpPre ++ toString (5 : Int) ++ impSuf) := rfl
  have hef : smartEffort (c7Task today) = (10, moderatePre ++ toString (2 : Int) ++ hoursSuf) := rfl
  have hdp : smartDependencies (c7Task today) [c7Task today] = (0, emptyExpl) := rfl
  refine ⟨hu, him, hef, hdp, ?_, by decide, by decide⟩
  rw [SmartBalance_default_eval_cons, hu, him, hef, hdp]
  refine congrArg Except.ok (Prod.ext ?_ ?_)
  · show round2 ((90 : ℚ) * (2/5) + 50 * (3/10) + 10 * (1/5) + 0 * (1/10)) = 53
    have hsum : (90 : ℚ) * (2/5) + 50 * (3/10) + 10 * (1/5) + 0 * (1/10) = ((53 : Int) : ℚ) := by
      norm_num
    rw [hsum, round2_intCast]
    norm_num
  · show String.intercalate bulletSep [dueTodayStr, medImpPre ++ toString (5 : Int) ++ impSuf,
        moderatePre ++ toString (2 : Int) ++ hoursSuf] = c7Explanation
    decide

/-! ## Theorems: analyze ordering (claim C4) -/

/-- C4: whenever scoring succeeds, `analyze` returns the scored list
sorted in descending score order, and for every score value the records
carrying it appear in exactly the order they have in the (input-ordered)
scored list - stable ties.  (`scoredTasks` lists the batch in input
order, so equality of the per-score filters is input-order stability.) -/
theorem analyze_sorted_stable (tasks : List PyTask) (strategy : String)
    (weights : Option Weights) (today : Int) (l : List ScoredTask)
    (h : scoredTasks tasks strategy weights today = Except.ok l) :
    analyze_tasks tasks strategy weights today = Except.ok (sortByScoreDesc l) ∧
    (sortByScoreDesc l).Pairwise (fun a b => b.score ≤ a.score) ∧
    ∀ s : ℚ, (sortByScoreDesc l).filter (fun x => decide (x.score = s))
      = l.filter (fun x => decide (x.score = s)) := by
  have htrans : ∀ a b c : ScoredTask,
      scoreDescBool a b → scoreDescBool b c → scoreDescBool a c := by
    intro a b c hab hbc
    simp only [scoreDescBool, decide_eq_true_eq] at *
    exact le_trans hbc hab
  have htotal : ∀ a b : ScoredTask, scoreDescBool a b || scoreDescBool b a := by
    intro a b
    simp only [scoreDescBool, Bool.or_eq_true, decide_eq_true_eq]
    exact le_total b.score a.score
  refine ⟨?_, ?_, ?_⟩
  · simp [analyze_tasks, h, Except.map]
  · have hs := List.sorted_mergeSort htrans htotal l
    exact hs.imp (by intro a b hab; simpa [scoreDescBool] using hab)
  · intro s
    set p : ScoredTask → Bool := fun x => decide (x.score = s) with hp
    have hmem : ∀ x ∈ l.filter p, x.score = s := by
      intro x hx
      have := (List.mem_filter.mp hx).2
      simpa [hp] using this
    have hA : (l.filter p).Pairwise (fun a b => scoreDescBool a b = true) := by
      apply List.pairwise_of_forall_mem_list
      intro a ha b hb
      simp only [scoreDescBool, decide_eq_true_eq]
      rw [hmem a ha, hmem b hb]
    have hsub : List.Sublist (l.filter p) (sortByScoreDesc l) :=
      List.sublist_mergeSort htrans htotal hA (List.filter_sublist l)
    have hsub2 : List.Sublist (l.filter p) ((sortByScoreDesc l).filter p) := by
      have h2 := hsub.filter p
      simpa using h2
    have hperm : List.Perm ((sortByScoreDesc l).filter p) (l.filter p) :=
      (List.mergeSort_perm l scoreDescBool).filter p
    exact (hsub2.eq_of_length (by simpa using hperm.length_eq.symm)).symm

theorem analyze_sorted_stable_witness :
    scoredTasks [tW1, tW2] ddName none 0 = Except.ok lW ∧
    analyze_tasks [tW1, tW2] ddName none 0 = Except.ok (sortByScoreDesc lW) ∧
    (sortByScoreDesc lW).Pairwise (fun a b => b.score ≤ a.score) ∧
    (sortByScoreDesc lW).filter (fun x => decide (x.score = (120 : ℚ)))
      = lW.filter (fun x => decide (x.score = (120 : ℚ))) := by
  have h : scoredTasks [tW1, tW2] ddName none 0 = Except.ok lW := by rfl
  have hmain := analyze_sorted_stable [tW1, tW2] ddName none 0 lW h
  exact ⟨h, hmain.1, hmain.2.1, hmain.2.2 120⟩

/-! ## Fuel sufficiency for the depth-first traversal -/

theorem length_filter_mono {α : Type _} (l : List α) (p q : α → Bool)
    (h : ∀ x, q x = true → p x = true) :
    (l.filter q).length ≤ (l.filter p).length := by
  induction l with
  | nil => simp
  | cons a t ih =>
    simp only [List.filter_cons]
    by_cases hq : q a = true
    · rw [if_pos hq, if_pos (h a hq)]
      simpa using ih
    · rw [if_neg hq]
      by_cases hp : p a = true
      · rw [if_pos hp]
        exact le_trans ih (by simp)
      · rw [if_neg hp]
        exact ih

theorem length_filter_strict {α : Type _} [DecidableEq α] (l : List α) (v : List α) (node : α)
    (hl : node ∈ l) (hv : node ∉ v) :
    (l.filter (fun x => decide (x ∉ node :: v))).length
      < (l.filter (fun x => decide (x ∉ v))).length := by
  induction l with
  | nil => cases hl
  | cons a t ih =>
    simp only [List.filter_cons]
    rcases List.mem_cons.mp hl with heq | hmem
    · subst heq
      rw [if_neg (by simp), if_pos (by simpa using hv)]
      have hmono := length_filter_mono t (fun x => decide (x ∉ v)) (fun x => decide (x ∉ node :: v))
        (by intro x hx; simp only [decide_eq_true_eq] at hx ⊢; intro hxv; exact hx (List.mem_cons_of_mem _ hxv))
      simp only [List.length_cons]
      omega
    · by_cases h1 : a ∈ v
      · rw [if_neg (by simp [h1]), if_neg (by simp [h1])]
        exact ih hmem
      · by_cases h2 : a = node
        · subst h2
          rw [if_neg (by simp), if_pos (by simpa using h1)]
          have := ih hmem
          simp only [List.length_cons]
          omega
        · rw [if_pos (by simp [h1, h2]), if_pos (by simpa using h1)]
          simp only [List.length_cons]
          exact Nat.succ_lt_succ (ih hmem)

theorem remaining_le (g : List (Int × List Int)) (v : List Int) :
    remaining g v ≤ (univList g).length :=
  List.length_filter_le _ _

theorem remaining_mono (g : List (Int × List Int)) {v v' : List Int}
    (h : ∀ x, x ∈ v → x ∈ v') : remaining g v' ≤ remaining g v := by
  apply length_filter_mono
  intro x hx
  simp only [decide_eq_true_eq] at hx ⊢
  intro hxv
  exact hx (h x hxv)

theorem remaining_pos (g : List (Int × List Int)) {v : List Int} {node : Int}
    (hu : node ∈ univList g) (hv : node ∉ v) : 1 ≤ remaining g v := by
  have hm : node ∈ (univList g).filter (fun x => decide (x ∉ v)) :=
    List.mem_filter.mpr ⟨hu, by simpa⟩
  exact List.length_pos_of_mem hm

theorem remaining_strict (g : List (Int × List Int)) {v : List Int} {node : Int}
    (hu : node ∈ univList g) (hv : node ∉ v) :
    remaining g (setAdd node v) < remaining g v := by
  unfold remaining setAdd
  rw [if_neg hv]
  exact length_filter_strict _ _ _ hu hv

theorem subset_setAdd (y : Int) (l : List Int) : ∀ x ∈ l, x ∈ setAdd y l := by
  intro x hx
  unfold setAdd
  by_cases h : y ∈ l
  · rwa [if_pos h]
  · rw [if_neg h]
    exact List.mem_cons_of_mem _ hx

theorem graphGet_subset_univ (g : List (Int × List Int)) (n d : Int)
    (hd : d ∈ graphGet g n) : d ∈ univList g := by
  induction g with
  | nil => simp [graphGet, List.lookup] at hd
  | cons kv rest ih =>
    obtain ⟨k, v⟩ := kv
    simp only [univList, List.foldr_cons]
    simp only [graphGet, List.lookup] at hd
    by_cases hk : (n == k) = true
    · rw [hk] at hd
      simp only at hd
      exact List.mem_cons_of_mem _ (List.mem_append_left _ hd)
    · rw [Bool.not_eq_true] at hk
      rw [hk] at hd
      simp only at hd
      have := ih (by simpa [graphGet] using hd)
      exact List.mem_cons_of_mem _ (List.mem_append_right _ (by simpa [univList] using this))

theorem keys_subset_univ (g : List (Int × List Int)) :
    ∀ k ∈ g.map Prod.fst, k ∈ univList g := by
  induction g with
  | nil => simp
  | cons kv rest ih =>
    obtain ⟨k, v⟩ := kv
    intro x hx
    simp only [univList, List.foldr_cons]
    simp only [List.map_cons] at hx
    rcases List.mem_cons.mp hx with heq | hmem
    · exact heq ▸ List.mem_cons_self _ _
    · exact List.mem_cons_of_mem _
        (List.mem_append_right _ (by simpa [univList] using ih x hmem))

/-- The neighbor loop preserves the traversal invariant: the result is
the `ValueError`, or an ordinary value whose visited set contains the
starting visited set and - when the loop is still `False` - still leaves
the fuel sufficient. -/
theorem dfsVisit_fold_ok (g : List (Int × List Int)) (fuel : Nat)
    (hrec : ∀ nb p s, nb ∈ univList g → nb ∉ s.visited → remaining g s.visited < fuel →
      DfsOk s (dfs fuel g nb p s)) :
    ∀ (ns : List Int) (acc : Except PyErr (Bool × List Int × DetectSt)) (v0 : List Int),
      (∀ n ∈ ns, n ∈ univList g) →
      (acc = Except.error PyErr.valueError ∨
        ∃ b p s, acc = Except.ok (b, p, s) ∧ (∀ x, x ∈ v0 → x ∈ s.visited) ∧
          (b = false → remaining g s.visited < fuel)) →
      (ns.foldl (dfsVisit (fun nb p s => dfs fuel g nb p s)) acc
          = Except.error PyErr.valueError ∨
        ∃ b p s, ns.foldl (dfsVisit (fun nb p s => dfs fuel g nb p s)) acc
            = Except.ok (b, p, s) ∧
          (∀ x, x ∈ v0 → x ∈ s.visited) ∧ (b = false → remaining g s.visited < fuel)) := by
  intro ns
  induction ns with
  | nil =>
    intro acc v0 _ hacc
    simpa using hacc
  | cons nb rest ih =>
    intro acc v0 hns hacc
    rw [List.foldl_cons]
    apply ih _ v0 (fun n hn => hns n (List.mem_cons_of_mem _ hn))
    rcases hacc with herr | ⟨b, p, s, heq, hmono, hfb⟩
    · left
      rw [herr]
      rfl
    · rw [heq]
      cases b with
      | true =>
        right
        exact ⟨true, p, s, rfl, hmono, fun h => Bool.noConfusion h⟩
      | false =>
        by_cases hv : nb ∈ s.visited
        · by_cases hr : nb ∈ s.recStack
          · cases hidx : p.findIdx? (fun x => x == nb) with
            | none =>
              left
              simp [dfsVisit, hv, hr, hidx]
            | some i =>
              right
              exact ⟨true, p, ⟨s.visited, s.recStack, s.cycles ++ [p.drop i ++ [nb]]⟩,
                     by simp [dfsVisit, hv, hr, hidx], hmono, fun h => Bool.noConfusion h⟩
          · right
            exact ⟨false, p, s, by simp [dfsVisit, hv, hr], hmono, hfb⟩
        · have hnbu := hns nb (List.mem_cons_self _ _)
          have hd := hrec nb p s hnbu hv (hfb rfl)
          rcases hd with herr2 | ⟨b2, p2, s2, heq2, hmono2⟩
          · left
            simp [dfsVisit, hv, herr2]
          · right
            refine ⟨b2, p2, s2, by simp [dfsVisit, hv, heq2],
                    fun x hx => hmono2 x (hmono x hx), ?_⟩
            intro _
            exact lt_of_le_of_lt (remaining_mono g hmono2) (hfb rfl)

/-- With enough fuel, `dfs` never runs out: it either raises the
`ValueError` or returns, having only grown the visited set. -/
theorem dfs_ok (g : List (Int × List Int)) :
    ∀ fuel node path st, node ∈ univList g → node ∉ st.visited →
      remaining g st.visited < fuel → DfsOk st (dfs fuel g node path st) := by
  intro fuel
  induction fuel with
  | zero =>
    intro node path st _ _ hrem
    exact absurd hrem (Nat.not_lt_zero _)
  | succ f ih =>
    intro node path st hu hv hrem
    have h1 := remaining_strict g hu hv
    have h2 := remaining_pos g hu hv
    have hrem1 : remaining g (setAdd node st.visited) < f := by omega
    have hfold := dfsVisit_fold_ok g f (fun nb p s ha hb hc => ih nb p s ha hb hc)
      (graphGet g node)
      (Except.ok (false, path ++ [node],
        ⟨setAdd node st.visited, setAdd node st.recStack, st.cycles⟩))
      st.visited
      (fun n hn => graphGet_subset_univ g node n hn)
      (Or.inr ⟨false, path ++ [node], _, rfl,
        fun x hx => subset_setAdd node st.visited x hx, fun _ => hrem1⟩)
    rcases hfold with herr | ⟨b, p, s, heq, hmono, _⟩
    · left
      simp [dfs, herr]
    · cases b with
      | false =>
        right
        exact ⟨false, p.dropLast, ⟨s.visited, s.recStack.erase node, s.cycles⟩,
               by simp [dfs, heq], hmono⟩
      | true =>
        right
        exact ⟨true, p, s, by simp [dfs, heq], hmono⟩

theorem detectLoop_ok (g : List (Int × List Int)) :
    ∀ keys st, (∀ k ∈ keys, k ∈ univList g) →
      (detectLoop ((univList g).length + 1) g keys st = Except.error PyErr.valueError ∨
       ∃ s', detectLoop ((univList g).length + 1) g keys st = Except.ok s') := by
  intro keys
  induction keys with
  | nil =>
    intro st _
    right
    exact ⟨st, rfl⟩
  | cons k rest ih =>
    intro st hks
    by_cases hv : k ∈ st.visited
    · rcases ih st (fun x hx => hks x (List.mem_cons_of_mem _ hx)) with herr | ⟨s', hok⟩
      · left
        simp [detectLoop, hv, herr]
      · right
        exact ⟨s', by simp [detectLoop, hv, hok]⟩
    · have hk := hks k (List.mem_cons_self _ _)
      have hrem : remaining g st.visited < (univList g).length + 1 :=
        Nat.lt_succ_of_le (remaining_le g st.visited)
      rcases dfs_ok g ((univList g).length + 1) k [] st hk hv hrem with
        herr | ⟨b, p, s', heq, hmono⟩
      · left
        simp [detectLoop, hv, herr]
      · rcases ih s' (fun x hx => hks x (List.mem_cons_of_mem _ hx)) with herr2 | ⟨s2, hok2⟩
        · left
          simp [detectLoop, hv, heq, herr2]
        · right
          exact ⟨s2, by simp [detectLoop, hv, heq, hok2]⟩

/-- C9: `detectCycles` terminates on every finite batch.  The embedding
makes Python's recursion fuel-indexed; with the canonical fuel
`(univList g).length + 1` the traversal never exhausts it (every nested
call enters a previously unvisited node, shrinking the `remaining`
measure), so evaluation always completes - with the cycle list, or with
the `ValueError` of claim C1's bug, which is a raised exception, not an
infinite loop or unbounded recursion. -/
theorem detectCycles_terminates (tasks : List PyTask) :
    (∃ r, detect_circular_dependencies tasks = Except.ok r) ∨
    detect_circular_dependencies tasks = Except.error PyErr.valueError := by
  rcases detectLoop_ok (buildGraph tasks) ((buildGraph tasks).map Prod.fst) ⟨[], [], []⟩
      (keys_subset_univ (buildGraph tasks)) with herr | ⟨s', hok⟩
  · right
    simp [detect_circular_dependencies, herr, Except.map]
  · left
    exact ⟨s'.cycles, by simp [detect_circular_dependencies, hok, Except.map]⟩

/-! ## The traversal on acyclic graphs (claim C5) -/

theorem mem_setAdd {x y : Int} {l : List Int} : x ∈ setAdd y l ↔ x = y ∨ x ∈ l := by
  unfold setAdd
  by_cases h : y ∈ l
  · rw [if_pos h]
    constructor
    · exact Or.inr
    · rintro (rfl | hx)
      · exact h
      · exact hx
  · rw [if_neg h]
    exact List.mem_cons

theorem self_mem_setAdd (y : Int) (l : List Int) : y ∈ setAdd y l :=
  mem_setAdd.mpr (Or.inl rfl)

/-- On an acyclic graph the neighbor loop never finds a back edge: every
node on the recursion stack reaches the current node, so a stacked
neighbor would close a cycle.  The loop therefore completes with `False`,
the recursion stack and cycle list unchanged and the visited set grown. -/
theorem dfsVisit_fold_acyclic (g : List (Int × List Int)) (hacyc : AcyclicGraph g)
    (fuel : Nat) (node : Int)
    (hrec : ∀ nb p s, nb ∈ univList g → nb ∉ s.visited →
      (∀ x ∈ s.recStack, x ∈ s.visited) →
      (∀ x ∈ s.recStack, Relation.ReflTransGen (depEdge g) x nb) →
      remaining g s.visited < fuel →
      ∃ p' s', dfs fuel g nb p s = Except.ok (false, p', s') ∧
        s'.recStack = s.recStack ∧ s'.cycles = s.cycles ∧
        ∀ x, x ∈ s.visited → x ∈ s'.visited) :
    ∀ (ns : List Int) (p0 : List Int) (s0 : DetectSt),
      (∀ n ∈ ns, depEdge g node n) →
      (∀ n ∈ ns, n ∈ univList g) →
      (∀ x ∈ s0.recStack, x ∈ s0.visited) →
      (∀ x ∈ s0.recStack, Relation.ReflTransGen (depEdge g) x node) →
      remaining g s0.visited < fuel →
      ∃ p' s', ns.foldl (dfsVisit (fun nb p s => dfs fuel g nb p s)) (Except.ok (false, p0, s0))
          = Except.ok (false, p', s') ∧
        s'.recStack = s0.recStack ∧ s'.cycles = s0.cycles ∧
        ∀ x, x ∈ s0.visited → x ∈ s'.visited := by
  intro ns
  induction ns with
  | nil =>
    intro p0 s0 _ _ _ _ _
    exact ⟨p0, s0, rfl, rfl, rfl, fun x hx => hx⟩
  | cons nb rest ih =>
    intro p0 s0 hedge huniv hrx hinv hrem
    rw [List.foldl_cons]
    by_cases hv : nb ∈ s0.visited
    · by_cases hr : nb ∈ s0.recStack
      · exfalso
        exact hacyc nb
          (Relation.TransGen.tail' (hinv nb hr) (hedge nb (List.mem_cons_self _ _)))
      · have hstep : dfsVisit (fun nb p s => dfs fuel g nb p s)
            (Except.ok (false, p0, s0)) nb = Except.ok (false, p0, s0) := by
          simp [dfsVisit, hv, hr]
        rw [hstep]
        exact ih p0 s0 (fun n hn => hedge n (List.mem_cons_of_mem _ hn))
          (fun n hn => huniv n (List.mem_cons_of_mem _ hn)) hrx hinv hrem
    · have hinv' : ∀ x ∈ s0.recStack, Relation.ReflTransGen (depEdge g) x nb := by
        intro x hx
        exact Relation.ReflTransGen.tail (hinv x hx) (hedge nb (List.mem_cons_self _ _))
      obtain ⟨p', s', heq, hrs, hcy, hmono⟩ :=
        hrec nb p0 s0 (huniv nb (List.mem_cons_self _ _)) hv hrx hinv' hrem
      have hstep : dfsVisit (fun nb p s => dfs fuel g nb p s)
          (Except.ok (false, p0, s0)) nb = dfs fuel g nb p0 s0 := by
        simp [dfsVisit, hv]
      rw [hstep, heq]
      have hrx' : ∀ x ∈ s'.recStack, x ∈ s'.visited := by
        intro x hx
        rw [hrs] at hx
        exact hmono x (hrx x hx)
      have hinv2 : ∀ x ∈ s'.recStack, Relation.ReflTransGen (depEdge g) x node := by
        intro x hx
        rw [hrs] at hx
        exact hinv x hx
      have hrem' : remaining g s'.visited < fuel :=
        lt_of_le_of_lt (remaining_mono g hmono) hrem
      obtain ⟨p2, s2, heq2, hrs2, hcy2, hmono2⟩ :=
        ih p' s' (fun n hn => hedge n (List.mem_cons_of_mem _ hn))
          (fun n hn => huniv n (List.mem_cons_of_mem _ hn)) hrx' hinv2 hrem'
      exact ⟨p2, s2, heq2, by rw [hrs2, hrs], by rw [hcy2, hcy],
             fun x hx => hmono2 x (hmono x hx)⟩

/-- On an acyclic graph `dfs` returns `False` with the recursion stack
and cycle list unchanged (and the visited set grown). -/
theorem dfs_acyclic (g : List (Int × List Int)) (hacyc : AcyclicGraph g) :
    ∀ fuel node path st, node ∈ univList g → node ∉ st.visited →
      (∀ x ∈ st.recStack, x ∈ st.visited) →
      (∀ x ∈ st.recStack, Relation.ReflTransGen (depEdge g) x node) →
      remaining g st.visited < fuel →
      ∃ p' s', dfs fuel g node path st = Except.ok (false, p', s') ∧
        s'.recStack = st.recStack ∧ s'.cycles = st.cycles ∧
        ∀ x, x ∈ st.visited → x ∈ s'.visited := by
  intro fuel
  induction fuel with
  | zero =>
    intro node path st _ _ _ _ hrem
    exact absurd hrem (Nat.not_lt_zero _)
  | succ f ih =>
    intro node path st hu hv hrx hinv hrem
    have hnr : node ∉ st.recStack := fun h => hv (hrx node h)
    have h1 := remaining_strict g hu hv
    have h2 := remaining_pos g hu hv
    have hrem1 : remaining g (setAdd node st.visited) < f := by omega
    have hrx1 : ∀ x ∈ (⟨setAdd node st.visited, setAdd node st.recStack, st.cycles⟩ :
        DetectSt).recStack, x ∈ (⟨setAdd node st.visited, setAdd node st.recStack, st.cycles⟩ :
        DetectSt).visited := by
      intro x hx
      rcases mem_setAdd.mp hx with rfl | hx'
      · exact self_mem_setAdd _ _
      · exact subset_setAdd _ _ _ (hrx x hx')
    have hinv1 : ∀ x ∈ (⟨setAdd node st.visited, setAdd node st.recStack, st.cycles⟩ :
        DetectSt).recStack, Relation.ReflTransGen (depEdge g) x node := by
      intro x hx
      rcases mem_setAdd.mp hx with rfl | hx'
      · exact Relation.ReflTransGen.refl
      · exact hinv x hx'
    obtain ⟨p', s', heq, hrs, hcy, hmono⟩ :=
      dfsVisit_fold_acyclic g hacyc f node
        (fun nb p s a b c d e => ih nb p s a b c d e)
        (graphGet g node) (path ++ [node])
        ⟨setAdd node st.visited, setAdd node st.recStack, st.cycles⟩
        (fun n hn => hn)
        (fun n hn => graphGet_subset_univ g node n hn)
        hrx1 hinv1 hrem1
    refine ⟨p'.dropLast, ⟨s'.visited, s'.recStack.erase node, s'.cycles⟩,
            by simp [dfs, heq], ?_, ?_, ?_⟩
    · show (s'.recStack).erase node = st.recStack
      rw [hrs]
      show (setAdd node st.recStack).erase node = st.recStack
      unfold setAdd
      rw [if_neg hnr]
      exact List.erase_cons_head node st.recStack
    · exact hcy
    · intro x hx
      exact hmono x (subset_setAdd node st.visited x hx)

theorem detectLoop_acyclic (g : List (Int × List Int)) (hacyc : AcyclicGraph g) :
    ∀ keys st, (∀ k ∈ keys, k ∈ univList g) → st.recStack = [] →
      ∃ s', detectLoop ((univList g).length + 1) g keys st = Except.ok s' ∧
        s'.cycles = st.cycles ∧ s'.recStack = [] := by
  intro keys
  induction keys with
  | nil =>
    intro st _ hrs
    exact ⟨st, rfl, rfl, hrs⟩
  | cons k rest ih =>
    intro st hks hrs
    by_cases hv : k ∈ st.visited
    · obtain ⟨s', h1, h2, h3⟩ := ih st (fun x hx => hks x (List.mem_cons_of_mem _ hx)) hrs
      exact ⟨s', by simp [detectLoop, hv, h1], h2, h3⟩
    · obtain ⟨p', s', heq, hrs', hcy, hmono⟩ :=
        dfs_acyclic g hacyc ((univList g).length + 1) k [] st
          (hks k (List.mem_cons_self _ _)) hv
          (by rw [hrs]; intro x hx; cases hx)
          (by rw [hrs]; intro x hx; cases hx)
          (Nat.lt_succ_of_le (remaining_le g _))
      obtain ⟨s2, h1, h2, h3⟩ :=
        ih s' (fun x hx => hks x (List.mem_cons_of_mem _ hx)) (by rw [hrs', hrs])
      exact ⟨s2, by simp [detectLoop, hv, heq, h1], by rw [h2, hcy], h3⟩

/-- C5: `detectCycles` returns the empty list on every acyclic batch;
on `A → B → A` it returns the cycle `[1, 2, 1]` containing both ids; on a
single self-dependency it returns the 2-element cycle `[7, 7]`; and on
two independent 2-cycles plus one unconnected task it returns the two
cycles `[1, 2, 1]` and `[3, 4, 3]`. -/
theorem detectCycles_cases :
    (∀ tasks : List PyTask, AcyclicGraph (buildGraph tasks) →
      detect_circular_dependencies tasks = Except.ok []) ∧
    detect_circular_dependencies cycTasksAB = Except.ok [[1, 2, 1]] ∧
    detect_circular_dependencies cycTaskSelf = Except.ok [[7, 7]] ∧
    detect_circular_dependencies cycTasksTwo = Except.ok [[1, 2, 1], [3, 4, 3]] := by
  refine ⟨?_, by decide, by decide, by decide⟩
  intro tasks hacyc
  obtain ⟨s', h1, h2, h3⟩ := detectLoop_acyclic (buildGraph tasks) hacyc
    ((buildGraph tasks).map Prod.fst) ⟨[], [], []⟩ (keys_subset_univ _) rfl
  simp [detect_circular_dependencies, h1, Except.map, h2]

theorem detectCycles_cases_witness :
    AcyclicGraph (buildGraph acyclicTasks) ∧
    detect_circular_dependencies acyclicTasks = Except.ok [] := by
  have hne : ∀ a b : Int, ¬ depEdge (buildGraph acyclicTasks) a b := by
    intro a b hb
    have hg : buildGraph acyclicTasks = [(1, [])] := rfl
    rw [depEdge, hg] at hb
    by_cases h1 : a = 1
    · simp [graphGet, List.lookup, h1] at hb
    · have hf : (a == 1) = false := beq_eq_false_iff_ne.mpr h1
      simp [graphGet, List.lookup, hf] at hb
  have hacyc : AcyclicGraph (buildGraph acyclicTasks) := by
    intro a htg
    cases htg with
    | single h => exact hne _ _ h
    | tail _ h => exact hne _ _ h
  exact ⟨hacyc, detectCycles_cases.1 acyclicTasks hacyc⟩

/-! ## Theorems: the stale-recursion-stack crash (claim C1) and the
falsy id 0 (claim C10) -/

/-- C1 is refuted by the code: on a 2-cycle plus a third task whose
dependency points into the cycle, the first traversal aborts with `True`
after recording the cycle and never cleans `rec_stack`; the traversal
rooted at task 3 then sees neighbor 1 as visited-and-on-the-stack and
calls `path.index(1)` on the path `[3]`, raising `ValueError`.
`detect_circular_dependencies` therefore CAN raise. -/
theorem detectCycles_stale_recstack_crash :
    detect_circular_dependencies c1Tasks = Except.error PyErr.valueError := by decide

theorem mem_keys_dictSet {g : List (Int × List Int)} {k x : Int} {v : List Int}
    (hx : x ∈ (dictSet g k v).map Prod.fst) :
    x = k ∨ x ∈ g.map Prod.fst := by
  induction g with
  | nil =>
    simp only [dictSet, List.map_cons, List.map_nil] at hx
    rcases List.mem_cons.mp hx with heq | hmem
    · exact Or.inl heq
    · cases hmem
  | cons kv rest ih =>
    obtain ⟨k', v'⟩ := kv
    by_cases hk : k' = k
    · rw [dictSet, if_pos hk] at hx
      simp only [List.map_cons] at hx ⊢
      rcases List.mem_cons.mp hx with heq | hmem
      · exact Or.inl heq
      · exact Or.inr (List.mem_cons_of_mem _ hmem)
    · rw [dictSet, if_neg hk] at hx
      simp only [List.map_cons] at hx ⊢
      rcases List.mem_cons.mp hx with heq | hmem
      · exact Or.inr (heq ▸ List.mem_cons_self _ _)
      · rcases ih hmem with heq2 | hmem2
        · exact Or.inl heq2
        · exact Or.inr (List.mem_cons_of_mem _ hmem2)

theorem buildGraph_keys_ne_zero :
    ∀ (tasks : List PyTask) (g0 : List (Int × List Int)),
      (∀ x ∈ g0.map Prod.fst, x ≠ 0) →
      ∀ x ∈ (tasks.foldl (fun g t =>
        match t.id with
        | some i => if i = 0 then g else dictSet g i t.dependencies
        | none => g) g0).map Prod.fst, x ≠ 0 := by
  intro tasks
  induction tasks with
  | nil =>
    intro g0 h0
    simpa using h0
  | cons t rest ih =>
    intro g0 h0
    rw [List.foldl_cons]
    apply ih
    cases ht : t.id with
    | none => simpa [ht] using h0
    | some i =>
      by_cases hi : i = 0
      · simpa [ht, hi] using h0
      · simp only [ht, if_neg hi]
        intro x hx
        rcases mem_keys_dictSet hx with rfl | hx'
        · exact hi
        · exact h0 x hx'

/-- C10: the `if task_id:` truthiness test excludes a task with id 0 from
the adjacency dict - 0 is never a key, so it never starts a traversal and
never appears as a cycle source; a task with id 0 is treated exactly like
a task with no id at all; and on a batch where task 0's dependency list
closes a circular chain with task 1, the cycle is silently missed. -/
theorem task_id_zero_excluded :
    (∀ tasks : List PyTask, ∀ x ∈ (buildGraph tasks).map Prod.fst, x ≠ 0) ∧
    (∀ (pre post : List PyTask) (deps : List Int),
      buildGraph (pre ++ { id := some 0, dependencies := deps } :: post)
        = buildGraph (pre ++ ({ dependencies := deps } : PyTask) :: post)) ∧
    detect_circular_dependencies c10Tasks = Except.ok [] := by
  refine ⟨?_, ?_, by decide⟩
  · intro tasks
    exact buildGraph_keys_ne_zero tasks [] (by simp)
  · intro pre post deps
    unfold buildGraph
    rw [List.foldl_append, List.foldl_append]
    rfl

theorem task_id_zero_excluded_witness :
    (1 : Int) ≠ 0 ∧
    buildGraph ([] ++ { id := some 0, dependencies := [1] } :: [])
      = buildGraph ([] ++ ({ dependencies := [1] } : PyTask) :: []) ∧
    detect_circular_dependencies c10Tasks = Except.ok [] :=
  ⟨task_id_zero_excluded.1 c10Tasks 1 (by decide),
   task_id_zero_excluded.2.1 [] [] [1],
   task_id_zero_excluded.2.2⟩
